import Mathlib

/-!
Shallow embedding of the POOKIEMONS_JU carbon-credit trading engine
(`blockchain.py`, `wallet.py`, `company_token.py`, `price_engine.py`).

Modelling conventions:
* Python floats are embedded as exact rationals `ℚ`.
* Python dicts keyed by strings are embedded as association lists with a
  first-match lookup (`alookup`) and an in-place update (`aset`); a key that
  is absent from the list corresponds to a missing dict entry.
* `time()` is passed in as an explicit `now : ℚ` argument wherever the
  source reads the clock.
* SHA-256 is abstracted as an arbitrary hash-function parameter
  `H : HashFn`; the proof-of-work loop of `mine_pending_transactions`,
  whose termination depends on the hash, becomes a relation (`MineStep`)
  that records exactly the postcondition the loop establishes: some nonce
  whose hash satisfies the difficulty predicate.
* `math.log1p` of `price_engine.py` is abstracted as a function parameter
  `l : ℚ → ℚ`; the only fact any theorem needs is `l 0 = 0`.
* Transaction dicts always carry the four required fields in this
  embedding (`from_address`, `to_address`, `amount`, `token_symbol`); the
  optional `type` key is an `Option String`.  The `id`, `timestamp`,
  `price` and `fee` keys that the source writes into transaction dicts are
  never read by any code path a claim is about and are omitted.
-/

/-- First-match association-list lookup (embeds `d[k]` / `k in d`). -/
def alookup {α : Type} : List (String × α) → String → Option α
  | [], _ => none
  | (k', v) :: rest, k => if k' = k then some v else alookup rest k

/-- Association-list update (embeds `d[k] = v`). -/
def aset {α : Type} : List (String × α) → String → α → List (String × α)
  | [], k, v => [(k, v)]
  | (k', v') :: rest, k, v =>
      if k' = k then (k', v) :: rest else (k', v') :: aset rest k v

theorem alookup_aset_self {α : Type} (m : List (String × α)) (k : String) (v : α) :
    alookup (aset m k v) k = some v := by
  induction m with
  | nil => simp [aset, alookup]
  | cons hd tl ih =>
    obtain ⟨k', v'⟩ := hd
    by_cases h : k' = k <;> simp [aset, alookup, h, ih]

theorem alookup_aset_ne {α : Type} (m : List (String × α)) (k k' : String) (v : α)
    (h : k' ≠ k) : alookup (aset m k v) k' = alookup m k' := by
  induction m with
  | nil => simp [aset, alookup, Ne.symm h]
  | cons hd tl ih =>
    obtain ⟨k₀, v₀⟩ := hd
    by_cases h0 : k₀ = k
    · subst h0
      simp [aset, alookup, Ne.symm h]
    · by_cases h1 : k₀ = k' <;> simp [aset, alookup, h0, h1, h, ih]

/-- Python list trimming `l = l[-100:]` guarded by `len(l) > 100`. -/
def trim100 {α : Type} (l : List α) : List α :=
  if l.length > 100 then l.drop (l.length - 100) else l

/-- In-place mutation of the last list element (`l[-1] = f l[-1]`);
the identity on the empty list. -/
def updateLast {α : Type} (f : α → α) : List α → List α
  | [] => []
  | [a] => [f a]
  | a :: b :: rest => a :: updateLast f (b :: rest)

theorem updateLast_length {α : Type} (f : α → α) (l : List α) :
    (updateLast f l).length = l.length := by
  induction l with
  | nil => rfl
  | cons a tl ih =>
    cases tl with
    | nil => rfl
    | cons b rest => simpa [updateLast] using ih

theorem getLast?_updateLast {α : Type} (f : α → α) (l : List α) :
    (updateLast f l).getLast? = l.getLast?.map f := by
  induction l with
  | nil => rfl
  | cons a tl ih =>
    cases tl with
    | nil => rfl
    | cons b rest =>
      obtain ⟨c, cs, hcc⟩ : ∃ c cs, updateLast f (b :: rest) = c :: cs := by
        cases rest <;> exact ⟨_, _, rfl⟩
      rw [updateLast, hcc, List.getLast?_cons_cons, ← hcc, ih,
        List.getLast?_cons_cons]

/-- Embeds `'0' * difficulty` -/
def zeroStr (d : Nat) : String := String.mk (List.replicate d '0')

/-- Python's `str.startswith(prefix)`, phrased over the underlying
character lists. -/
def startsWith (s pre : String) : Bool := pre.data.isPrefixOf s.data

/-- Python 3 `round(x)`: round half to even (banker's rounding). -/
def pyRound (x : ℚ) : ℤ :=
  if x - (⌊x⌋ : ℚ) < 1/2 then ⌊x⌋
  else if 1/2 < x - (⌊x⌋ : ℚ) then ⌊x⌋ + 1
  else if ⌊x⌋ % 2 = 0 then ⌊x⌋ else ⌊x⌋ + 1

/-- Python 3 `round(x, 2)`. -/
def round2 (x : ℚ) : ℚ := ((pyRound (x * 100) : ℤ) : ℚ) / 100

theorem floor_le_pyRound (x : ℚ) : ⌊x⌋ ≤ pyRound x := by
  unfold pyRound
  split
  · exact le_refl _
  · split
    · omega
    · split <;> omega

theorem round2_ge_hundredth (x : ℚ) (h : 1/100 ≤ x) : 1/100 ≤ round2 x := by
  unfold round2
  have h1 : (1 : ℚ) ≤ x * 100 := by linarith
  have h2 : (1 : ℤ) ≤ ⌊x * 100⌋ := by
    rw [Int.le_floor]; exact_mod_cast h1
  have h3 : (1 : ℤ) ≤ pyRound (x * 100) := le_trans h2 (floor_le_pyRound _)
  have h4 : (1 : ℚ) ≤ ((pyRound (x * 100) : ℤ) : ℚ) := by exact_mod_cast h3
  linarith

/-! ## Transactions and the balance ledger (`blockchain.py`) -/

/-- A transaction dict carrying the four required fields and the optional
`type` key (`transaction.get('type')`). -/
structure Tx where
  ty : Option String
  from_address : String
  to_address : String
  amount : ℚ
  token_symbol : String
deriving DecidableEq

/-- Embeds `CarbonCoinBlockchain.balances`: address → token symbol → amount. -/
abbrev Balances := List (String × List (String × ℚ))

/-- Embeds `CarbonCoinBlockchain.get_balance`. -/
def get_balance (b : Balances) (address token_symbol : String) : ℚ :=
  match alookup b address with
  | none => 0
  | some tb => (alookup tb token_symbol).getD 0

/-- The two initialization guards at the top of `_update_balances`:
`balances[to_addr] = {}` if missing, then `balances[to_addr][token] = 0`
if missing. -/
def ensureEntry (b : Balances) (addr tok : String) : Balances :=
  let tb := (alookup b addr).getD []
  let tb1 := if (alookup tb tok).isSome then tb else aset tb tok 0
  aset b addr tb1

/-- Embeds `balances[addr][tok] += d` (callers guarantee the entry exists; a
missing entry reads as 0, matching the post-`ensureEntry` call sites). -/
def addBal (b : Balances) (addr tok : String) (d : ℚ) : Balances :=
  let tb := (alookup b addr).getD []
  aset b addr (aset tb tok (((alookup tb tok).getD 0) + d))

/-- Embeds `CarbonCoinBlockchain._update_balances`. -/
def update_balances (b : Balances) (tx : Tx) : Balances :=
  let b1 := ensureEntry b tx.to_address tx.token_symbol
  if tx.ty = some "BUY" then
    addBal b1 tx.to_address tx.token_symbol tx.amount
  else if tx.ty = some "SELL" then
    match alookup b1 tx.from_address with
    | none => b1
    | some tb =>
      match alookup tb tx.token_symbol with
      | none => b1
      | some _ => addBal b1 tx.from_address tx.token_symbol (-tx.amount)
  else if tx.from_address ≠ "MINT" ∧ tx.from_address ≠ "SYSTEM" then
    let b2 := ensureEntry b1 tx.from_address tx.token_symbol
    let b3 := addBal b2 tx.from_address tx.token_symbol (-tx.amount)
    addBal b3 tx.to_address tx.token_symbol tx.amount
  else
    addBal b1 tx.to_address tx.token_symbol tx.amount

/-- Embeds `CarbonCoinBlockchain._validate_transaction`.  In this embedding a
`Tx` always carries the four required fields, so the
`all(field in transaction ...)` guard is identically true. -/
def validate_transaction (b : Balances) (tx : Tx) : Bool :=
  if tx.from_address = "MINT" ∨ tx.from_address = "SYSTEM" then true
  else if tx.ty = some "BUY" then true
  else if tx.ty = some "SELL" then
    match alookup b tx.from_address with
    | none => false
    | some tb =>
      match alookup tb tx.token_symbol with
      | none => false
      | some bal => decide (tx.amount ≤ bal)
  else true

/-! ## Blocks, the chain and mining (`blockchain.py`) -/

/-- Abstracted SHA-256 over the JSON dump of
`(index, transactions, timestamp, previous_hash, nonce)` —
the argument list of `Block.calculate_hash`. -/
abbrev HashFn := Nat → List Tx → ℚ → String → Nat → String

/-- Embeds `Block` (`blockchain.py`): the five hashed fields plus the stored hash. -/
structure Block where
  index : Nat
  transactions : List Tx
  timestamp : ℚ
  previous_hash : String
  nonce : Nat
  hash : String
deriving DecidableEq

/-- Embeds `Block.calculate_hash` (the stored `hash` field is not part of the
hashed data). -/
def calculate_hash (H : HashFn) (b : Block) : String :=
  H b.index b.transactions b.timestamp b.previous_hash b.nonce

/-- Per-token market state (`company_token.py`); the fields no claim reads
(identity, supply, emission history, verification flag, …) are omitted. -/
structure Candle where
  timestamp : ℚ
  open_ : ℚ
  high : ℚ
  low : ℚ
  close : ℚ
  volume : ℚ
deriving DecidableEq

/-- One entry of `CompanyToken.trades`. -/
structure TokenTrade where
  timestamp : ℚ
  amount : ℚ
  price : ℚ
  ty : String
deriving DecidableEq

structure CompanyToken where
  price : ℚ
  price_history : List (ℚ × ℚ)
  candlestick_data : List Candle
  volume_24h : ℚ
  trades : List TokenTrade
deriving DecidableEq

/-- The in-place candle merge of `update_price`
(`high = max(high, p)`, `low = min(low, p)`, `close = p`). -/
def mergeCandle (c : Candle) (new_price : ℚ) : Candle :=
  { c with high := max c.high new_price, low := min c.low new_price,
           close := new_price }

/-- Merge `new_price` into the most recent candle
(`candlestick_data[-1]` mutation of `update_price`). -/
def mergeLast (l : List Candle) (new_price : ℚ) : List Candle :=
  updateLast (fun c => mergeCandle c new_price) l

/-- The fresh candle opened by `update_price` once the 24h period has
elapsed. -/
def newCandle (current_time new_price : ℚ) (lc : Candle) : Candle :=
  { timestamp := current_time, open_ := lc.close, high := new_price,
    low := new_price, close := new_price, volume := 0 }

/-- Embeds `CompanyToken.update_price(new_price, force)` with the clock passed
explicitly as `current_time`. -/
def update_price (t : CompanyToken) (current_time new_price : ℚ)
    (force : Bool) : CompanyToken :=
  let young : Bool :=
    match t.candlestick_data.getLast? with
    | some lc => decide (current_time - lc.timestamp < 86400)
    | none => false
  if force = false ∧ young = true then
    { t with price := new_price,
             candlestick_data := mergeLast t.candlestick_data new_price }
  else
    let t1 := { t with price := new_price,
                       price_history :=
                         trim100 (t.price_history ++ [(current_time, new_price)]) }
    match t.candlestick_data.getLast? with
    | none => t1
    | some lc =>
      if 86400 ≤ current_time - lc.timestamp then
        { t1 with candlestick_data :=
            trim100 (t.candlestick_data ++ [newCandle current_time new_price lc]) }
      else
        { t1 with candlestick_data := mergeLast t.candlestick_data new_price }

/-- One entry of `CompanyToken.trades` built by `add_trade`. -/
def tradeEntry (now amount price : ℚ) (trade_type : String) : TokenTrade :=
  { timestamp := now, amount := amount, price := price, ty := trade_type }

/-- Embeds `candlestick_data[-1]['volume'] += amount` of `add_trade`. -/
def bumpLastVolume (l : List Candle) (amount : ℚ) : List Candle :=
  updateLast (fun c => { c with volume := c.volume + amount }) l

/-- Embeds `CompanyToken.add_trade(amount, price, trade_type)`. -/
def add_trade (t : CompanyToken) (now amount price : ℚ)
    (trade_type : String) : CompanyToken :=
  { t with trades := t.trades ++ [tradeEntry now amount price trade_type],
           volume_24h := t.volume_24h + amount * price,
           candlestick_data := bumpLastVolume t.candlestick_data amount }

/-- Embeds `CarbonCoinBlockchain`: chain, pending queue, difficulty, ledger and
the token registry. -/
structure ChainState where
  chain : List Block
  pending : List Tx
  difficulty : Nat
  balances : Balances
  registered_tokens : List (String × CompanyToken)
deriving DecidableEq

/-- Embeds `CarbonCoinBlockchain.create_transaction`: `none` models the raised
`ValueError` (the transaction is discarded), `some` the queued state. -/
def create_transaction (s : ChainState) (tx : Tx) : Option ChainState :=
  if validate_transaction s.balances tx then
    some { s with pending := s.pending ++ [tx] }
  else
    none

/-- The genesis block (`create_genesis_block`). -/
def genesisBlock (H : HashFn) (t0 : ℚ) : Block :=
  { index := 0, transactions := [], timestamp := t0, previous_hash := "0",
    nonce := 0, hash := H 0 [] t0 "0" 0 }

/-- The freshly constructed `CarbonCoinBlockchain(difficulty)` (with an
arbitrary pre-registered token registry). -/
def initState (H : HashFn) (d : Nat) (t0 : ℚ)
    (toks : List (String × CompanyToken)) : ChainState :=
  { chain := [genesisBlock H t0], pending := [], difficulty := d,
    balances := [], registered_tokens := toks }

/-- Embeds `CarbonCoinBlockchain.mine_pending_transactions(miner_address)` as a
step relation.  The proof-of-work `while` loop of the source has no
termination guarantee, so the mined case is expressed by its
postcondition: some nonce whose hash meets the difficulty.  The
relation admits any such nonce (a superset of the loop's behaviours,
which picks the least one). -/
inductive MineStep (H : HashFn) : ChainState → Bool → ChainState → Prop where
  | noop : ∀ s, s.pending = [] → MineStep H s false s
  | mined : ∀ s tip now nonce,
      s.pending ≠ [] →
      s.chain.getLast? = some tip →
      startsWith (H s.chain.length s.pending now tip.hash nonce)
        (zeroStr s.difficulty) = true →
      MineStep H s true
        { chain := s.chain ++
            [{ index := s.chain.length, transactions := s.pending,
               timestamp := now, previous_hash := tip.hash, nonce := nonce,
               hash := H s.chain.length s.pending now tip.hash nonce }],
          pending := [],
          difficulty := s.difficulty,
          balances := s.pending.foldl update_balances s.balances,
          registered_tokens := s.registered_tokens }

/-- Chain states built from a fresh blockchain solely by (successful)
transaction submissions and mining operations. -/
inductive Reachable (H : HashFn) : ChainState → Prop where
  | init : ∀ d t0 toks, Reachable H (initState H d t0 toks)
  | submit : ∀ s tx s', Reachable H s → create_transaction s tx = some s' →
      Reachable H s'
  | mine : ∀ s r s', Reachable H s → MineStep H s r s' → Reachable H s'

/-- The per-pair body of the `is_chain_valid` loop. -/
def checkPair (H : HashFn) (d : Nat) (prev b : Block) : Bool :=
  (b.hash == calculate_hash H b) && (b.previous_hash == prev.hash) &&
    startsWith b.hash (zeroStr d)

/-- Embeds `CarbonCoinBlockchain.is_chain_valid` (the loop over indices
`1 .. len-1`, phrased over consecutive pairs). -/
def is_chain_valid (H : HashFn) (d : Nat) : List Block → Bool
  | [] => true
  | [_] => true
  | b0 :: b1 :: rest => checkPair H d b0 b1 && is_chain_valid H d (b1 :: rest)

/-! ## Wallets and the trade executor (`wallet.py`) -/

/-- One entry of `Wallet.transaction_history` (timestamps omitted: no
claim reads them). -/
inductive HistEntry where
  | deposit (amount : ℚ)
  | trade (ty : String) (token_symbol : String) (amount price total fee : ℚ)
deriving DecidableEq

/-- Embeds `Wallet` (`wallet.py`); `username` and `created_at` are never read by
the trade paths and are omitted. -/
structure Wallet where
  address : String
  usd_balance : ℚ
  token_balances : List (String × ℚ)
  transaction_history : List HistEntry
deriving DecidableEq

/-- Embeds `Wallet.get_balance(token_symbol)` for a non-`None` symbol. -/
def getBalanceW (w : Wallet) (token_symbol : String) : ℚ :=
  (alookup w.token_balances token_symbol).getD 0

/-- Embeds `Wallet.add_usd`. -/
def add_usd (w : Wallet) (amount : ℚ) : Wallet :=
  { w with usd_balance := w.usd_balance + amount,
           transaction_history :=
             w.transaction_history ++ [HistEntry.deposit amount] }

/-- Embeds `Wallet.deduct_usd`. -/
def deduct_usd (w : Wallet) (amount : ℚ) : Bool × Wallet :=
  if w.usd_balance < amount then (false, w)
  else (true, { w with usd_balance := w.usd_balance - amount })

/-- Embeds `Wallet.add_tokens`. -/
def add_tokens (w : Wallet) (token_symbol : String) (amount : ℚ) : Wallet :=
  let tb := if (alookup w.token_balances token_symbol).isSome then
              w.token_balances
            else aset w.token_balances token_symbol 0
  let tb1 := aset tb token_symbol (((alookup tb token_symbol).getD 0) + amount)
  { w with token_balances := tb1 }

/-- Embeds `Wallet.deduct_tokens`. -/
def deduct_tokens (w : Wallet) (token_symbol : String) (amount : ℚ) :
    Bool × Wallet :=
  match alookup w.token_balances token_symbol with
  | none => (false, w)
  | some bal =>
    if bal < amount then (false, w)
    else
      let tb1 := aset w.token_balances token_symbol (bal - amount)
      (true, { w with token_balances := tb1 })

/-- Embeds `Wallet.record_trade`. -/
def record_trade (w : Wallet) (trade_type token_symbol : String)
    (amount price fee : ℚ) : Wallet :=
  { w with transaction_history := w.transaction_history ++
      [HistEntry.trade trade_type token_symbol amount price (amount * price) fee] }

/-- Result of `WalletManager.buy_tokens` (the returned dict). -/
inductive BuyResult where
  | tokenNotFound
  | insufficientFunds
  | chainRejected
  | ok (amount price cost fee total new_balance new_token_balance : ℚ)
deriving DecidableEq

/-- Result of `WalletManager.sell_tokens` (the returned dict). -/
inductive SellResult where
  | tokenNotFound
  | insufficientTokens
  | chainRejected
  | ok (amount price proceeds fee net_proceeds new_balance new_token_balance : ℚ)
deriving DecidableEq

/-- The `BUY`/`SELL` transaction dict built by the trade executor
(sender = receiver = the wallet's address). -/
def tradeTx (ty : String) (w : Wallet) (amount : ℚ)
    (token_symbol : String) : Tx :=
  { ty := some ty, from_address := w.address, to_address := w.address,
    amount := amount, token_symbol := token_symbol }

/-- Embeds `WalletManager.buy_tokens(username, token_symbol, amount, blockchain)`
for an existing wallet `w`, with the manager's `transaction_fee` passed as
`f` and the clock as `now`.  `BuyResult.chainRejected` models the
`ValueError` that `create_transaction` raises *after* the wallet, the
trade record and the token stats have already been mutated. -/
def buy_tokens (f : ℚ) (w : Wallet) (token_symbol : String) (amount : ℚ)
    (s : ChainState) (now : ℚ) : BuyResult × Wallet × ChainState :=
  match alookup s.registered_tokens token_symbol with
  | none => (BuyResult.tokenNotFound, w, s)
  | some token =>
    let cost := amount * token.price
    let fee := cost * f
    let total_cost := cost + fee
    if w.usd_balance < total_cost then (BuyResult.insufficientFunds, w, s)
    else
      let w1 := (deduct_usd w total_cost).2
      let w2 := add_tokens w1 token_symbol amount
      let w3 := record_trade w2 "BUY" token_symbol amount token.price fee
      let token1 := add_trade token now amount token.price "BUY"
      let reg1 := aset s.registered_tokens token_symbol token1
      let s1 := { s with registered_tokens := reg1 }
      match create_transaction s1 (tradeTx "BUY" w amount token_symbol) with
      | none => (BuyResult.chainRejected, w3, s1)
      | some s2 =>
          (BuyResult.ok amount token.price cost fee total_cost
            w3.usd_balance (getBalanceW w3 token_symbol), w3, s2)

/-- Embeds `WalletManager.sell_tokens(username, token_symbol, amount, blockchain)`
for an existing wallet `w`.  `SellResult.chainRejected` models the
`ValueError` raised by `create_transaction` after the wallet mutation. -/
def sell_tokens (f : ℚ) (w : Wallet) (token_symbol : String) (amount : ℚ)
    (s : ChainState) (now : ℚ) : SellResult × Wallet × ChainState :=
  match alookup s.registered_tokens token_symbol with
  | none => (SellResult.tokenNotFound, w, s)
  | some token =>
    if getBalanceW w token_symbol < amount then
      (SellResult.insufficientTokens, w, s)
    else
      let proceeds := amount * token.price
      let fee := proceeds * f
      let net_proceeds := proceeds - fee
      let w1 := (deduct_tokens w token_symbol amount).2
      let w2 := add_usd w1 net_proceeds
      let w3 := record_trade w2 "SELL" token_symbol amount token.price fee
      let token1 := add_trade token now amount token.price "SELL"
      let reg1 := aset s.registered_tokens token_symbol token1
      let s1 := { s with registered_tokens := reg1 }
      match create_transaction s1 (tradeTx "SELL" w amount token_symbol) with
      | none => (SellResult.chainRejected, w3, s1)
      | some s2 =>
          (SellResult.ok amount token.price proceeds fee net_proceeds
            w3.usd_balance (getBalanceW w3 token_symbol), w3, s2)

/-! ## The price engine (`price_engine.py`) -/

/-- Embeds `PriceEngine.base_volatility` (never read by the update formula). -/
def base_volatility : ℚ := 2/100

/-- Embeds `PriceEngine.emission_impact_factor`. -/
def emission_impact_factor : ℚ := 1/2

/-- Embeds `PriceEngine.market_sentiment_factor`. -/
def market_sentiment_factor : ℚ := 3/10

/-- Embeds `PriceEngine.volume_factor`. -/
def volume_factor : ℚ := 1/5

/-- Embeds `PriceEngine.calculate_price_update(token, emission_performance,
trading_volume, market_sentiment)`, reading `token.price` as
`token_price`.  `math.log1p` is abstracted as the parameter `l`. -/
def calculate_price_update (l : ℚ → ℚ) (token_price : ℚ)
    (emission_performance trading_volume market_sentiment : ℚ) : ℚ :=
  let emission_impact :=
    if emission_performance < 1 then
      (1 - emission_performance) * emission_impact_factor
    else
      -(emission_performance - 1) * emission_impact_factor
  let sentiment_impact := (market_sentiment - 1/2) * 2 * market_sentiment_factor
  let volume_impact := l trading_volume * (1/100) * volume_factor
  let total_impact := emission_impact + sentiment_impact + volume_impact
  let price_change_percent := max (min (total_impact * 100) 50) (-50)
  let new_price := token_price * (1 + price_change_percent / 100)
  round2 (max new_price (1/100))

/-! ## Helper lemmas about the wallet operations -/

theorem add_tokens_usd (w : Wallet) (sym : String) (q : ℚ) :
    (add_tokens w sym q).usd_balance = w.usd_balance := rfl

theorem add_tokens_address (w : Wallet) (sym : String) (q : ℚ) :
    (add_tokens w sym q).address = w.address := rfl

theorem getBalanceW_add_tokens (w : Wallet) (sym : String) (q : ℚ) :
    getBalanceW (add_tokens w sym q) sym = getBalanceW w sym + q := by
  unfold add_tokens getBalanceW
  cases h : alookup w.token_balances sym with
  | none => simp [h, alookup_aset_self]
  | some b => simp [h, alookup_aset_self]

theorem record_trade_usd (w : Wallet) (a b : String) (x y z : ℚ) :
    (record_trade w a b x y z).usd_balance = w.usd_balance := rfl

theorem record_trade_tokens (w : Wallet) (a b : String) (x y z : ℚ) :
    (record_trade w a b x y z).token_balances = w.token_balances := rfl

theorem deduct_usd_ok (w : Wallet) (amt : ℚ) (h : ¬ w.usd_balance < amt) :
    (deduct_usd w amt).2 = { w with usd_balance := w.usd_balance - amt } := by
  simp [deduct_usd, h]

theorem deduct_tokens_some (w : Wallet) (sym : String) (amt bal : ℚ)
    (h : alookup w.token_balances sym = some bal) (hle : ¬ bal < amt) :
    (deduct_tokens w sym amt).2 =
      { w with token_balances := aset w.token_balances sym (bal - amt) } := by
  simp [deduct_tokens, h, hle]

theorem deduct_tokens_none (w : Wallet) (sym : String) (amt : ℚ)
    (h : alookup w.token_balances sym = none) :
    (deduct_tokens w sym amt).2 = w := by
  simp [deduct_tokens, h]

theorem add_usd_tokens (w : Wallet) (x : ℚ) :
    (add_usd w x).token_balances = w.token_balances := rfl

theorem validate_buy_tx (b : Balances) (w : Wallet) (q : ℚ) (sym : String) :
    validate_transaction b (tradeTx "BUY" w q sym) = true := by
  simp [validate_transaction, tradeTx]

theorem getBalanceW_record_trade (w : Wallet) (a b : String) (x y z : ℚ)
    (sym : String) :
    getBalanceW (record_trade w a b x y z) sym = getBalanceW w sym := rfl

theorem getBalanceW_set_usd (w : Wallet) (u : ℚ) (sym : String) :
    getBalanceW { w with usd_balance := u } sym = getBalanceW w sym := rfl

/-- Success path of `buy_tokens`, fully characterized. -/
theorem buy_tokens_ok_eq (f : ℚ) (w : Wallet) (sym : String) (q : ℚ)
    (s : ChainState) (now : ℚ) (token : CompanyToken)
    (hreg : alookup s.registered_tokens sym = some token)
    (h : q * token.price + q * token.price * f ≤ w.usd_balance) :
    buy_tokens f w sym q s now =
      (BuyResult.ok q token.price (q * token.price) (q * token.price * f)
         (q * token.price + q * token.price * f)
         (w.usd_balance - (q * token.price + q * token.price * f))
         (getBalanceW w sym + q),
       record_trade
         (add_tokens
           { w with usd_balance :=
               w.usd_balance - (q * token.price + q * token.price * f) }
           sym q)
         "BUY" sym q token.price (q * token.price * f),
       { s with
           registered_tokens :=
             aset s.registered_tokens sym (add_trade token now q token.price "BUY"),
           pending := s.pending ++ [tradeTx "BUY" w q sym] }) := by
  have hlt : ¬ w.usd_balance < q * token.price + q * token.price * f :=
    not_lt.mpr h
  simp only [buy_tokens, hreg, hlt, if_false, ite_false, create_transaction,
    validate_buy_tx, if_true, ite_true]
  rw [deduct_usd_ok _ _ hlt]
  simp [Prod.mk.injEq, record_trade_usd, add_tokens_usd,
    getBalanceW_record_trade, getBalanceW_add_tokens, getBalanceW_set_usd]

/-- Insufficient-funds path of `buy_tokens`: nothing is mutated. -/
theorem buy_tokens_insufficient_eq (f : ℚ) (w : Wallet) (sym : String) (q : ℚ)
    (s : ChainState) (now : ℚ) (token : CompanyToken)
    (hreg : alookup s.registered_tokens sym = some token)
    (h : w.usd_balance < q * token.price + q * token.price * f) :
    buy_tokens f w sym q s now = (BuyResult.insufficientFunds, w, s) := by
  simp only [buy_tokens, hreg, h, if_true, ite_true]

theorem deduct_tokens_usd (w : Wallet) (sym : String) (amt : ℚ) :
    (deduct_tokens w sym amt).2.usd_balance = w.usd_balance := by
  unfold deduct_tokens
  cases h : alookup w.token_balances sym with
  | none => rfl
  | some bal => by_cases hb : bal < amt <;> simp [hb]

theorem getBalanceW_deduct_tokens (w : Wallet) (sym : String) (amt : ℚ)
    (hold : ¬ getBalanceW w sym < amt) (hamt : 0 ≤ amt) :
    getBalanceW (deduct_tokens w sym amt).2 sym = getBalanceW w sym - amt := by
  cases h : alookup w.token_balances sym with
  | none =>
    have h0 : getBalanceW w sym = 0 := by simp [getBalanceW, h]
    rw [h0] at hold
    have hz : amt = 0 := le_antisymm (not_lt.mp hold) hamt
    rw [deduct_tokens_none _ _ _ h, hz, h0, sub_zero]
  | some bal =>
    have hb : getBalanceW w sym = bal := by simp [getBalanceW, h]
    rw [hb] at hold
    rw [deduct_tokens_some _ _ _ _ h hold]
    simp [getBalanceW, alookup_aset_self, h]

theorem getBalanceW_add_usd (w : Wallet) (x : ℚ) (sym : String) :
    getBalanceW (add_usd w x) sym = getBalanceW w sym := rfl

/-- The wallet state after the three wallet mutations of `sell_tokens`
(deduct tokens, credit net proceeds, record the trade). -/
def sellWallet (f : ℚ) (w : Wallet) (sym : String) (amt price : ℚ) : Wallet :=
  record_trade (add_usd (deduct_tokens w sym amt).2 (amt * price - amt * price * f))
    "SELL" sym amt price (amt * price * f)

theorem sellWallet_usd (f : ℚ) (w : Wallet) (sym : String) (amt p : ℚ) :
    (sellWallet f w sym amt p).usd_balance =
      w.usd_balance + (amt * p - amt * p * f) := by
  simp [sellWallet, record_trade_usd, add_usd, deduct_tokens_usd]

theorem getBalanceW_sellWallet (f : ℚ) (w : Wallet) (sym : String) (amt p : ℚ)
    (hold : ¬ getBalanceW w sym < amt) (hamt : 0 ≤ amt) :
    getBalanceW (sellWallet f w sym amt p) sym = getBalanceW w sym - amt := by
  rw [sellWallet, getBalanceW_record_trade, getBalanceW_add_usd,
    getBalanceW_deduct_tokens _ _ _ hold hamt]

/-- Chain-rejected path of `sell_tokens`: the wallet and the token have
already been mutated, the pending queue has not. -/
theorem sell_tokens_rejected_eq (f : ℚ) (w : Wallet) (sym : String) (amt : ℚ)
    (s : ChainState) (now : ℚ) (token : CompanyToken)
    (hreg : alookup s.registered_tokens sym = some token)
    (hold : ¬ getBalanceW w sym < amt)
    (hval : validate_transaction s.balances (tradeTx "SELL" w amt sym) = false) :
    sell_tokens f w sym amt s now =
      (SellResult.chainRejected, sellWallet f w sym amt token.price,
       { s with
           registered_tokens :=
             aset s.registered_tokens sym (add_trade token now amt token.price "SELL") }) := by
  simp only [sell_tokens, hreg, hold, if_false, ite_false, create_transaction,
    hval, Bool.false_eq_true, sellWallet]

/-- Chain-accepted path of `sell_tokens`. -/
theorem sell_tokens_ok_eq (f : ℚ) (w : Wallet) (sym : String) (amt : ℚ)
    (s : ChainState) (now : ℚ) (token : CompanyToken)
    (hreg : alookup s.registered_tokens sym = some token)
    (hold : ¬ getBalanceW w sym < amt)
    (hval : validate_transaction s.balances (tradeTx "SELL" w amt sym) = true) :
    sell_tokens f w sym amt s now =
      (SellResult.ok amt token.price (amt * token.price) (amt * token.price * f)
         (amt * token.price - amt * token.price * f)
         (sellWallet f w sym amt token.price).usd_balance
         (getBalanceW (sellWallet f w sym amt token.price) sym),
       sellWallet f w sym amt token.price,
       { s with
           registered_tokens :=
             aset s.registered_tokens sym (add_trade token now amt token.price "SELL"),
           pending := s.pending ++ [tradeTx "SELL" w amt sym] }) := by
  simp only [sell_tokens, hreg, hold, if_false, ite_false, create_transaction,
    hval, if_true, ite_true, sellWallet]

theorem alookup_add_tokens (w : Wallet) (sym : String) (q : ℚ) :
    alookup (add_tokens w sym q).token_balances sym =
      some (getBalanceW w sym + q) := by
  unfold add_tokens getBalanceW
  cases h : alookup w.token_balances sym <;> simp [h, alookup_aset_self]

theorem getBalanceW_sellWallet_some (f : ℚ) (w : Wallet) (sym : String)
    (amt p bal : ℚ) (h : alookup w.token_balances sym = some bal)
    (hnb : ¬ bal < amt) :
    getBalanceW (sellWallet f w sym amt p) sym = bal - amt := by
  rw [sellWallet, getBalanceW_record_trade, getBalanceW_add_usd,
    deduct_tokens_some _ _ _ _ h hnb]
  simp [getBalanceW, alookup_aset_self]

/-! ## Concrete fixtures used by witnesses and counterexamples -/

/-- A registered token priced at 100.00 with no candles. -/
def demoToken : CompanyToken :=
  { price := 100, price_history := [], candlestick_data := [],
    volume_24h := 0, trades := [] }

/-- A wallet with the default 10000 settlement balance and no holdings. -/
def demoWallet : Wallet :=
  { address := "addr1", usd_balance := 10000, token_balances := [],
    transaction_history := [] }

/-- A chain state with `demoToken` registered and an empty mined ledger. -/
def demoChainState : ChainState :=
  { chain := [], pending := [], difficulty := 2, balances := [],
    registered_tokens := [("TOK", demoToken)] }

/-- A wallet that holds 5 TOK in its own ledger while the chain's mined
ledger has no entry for its address. -/
def cexWallet : Wallet :=
  { address := "addr1", usd_balance := 10000,
    token_balances := [("TOK", 5)], transaction_history := [] }

/-! ## C5 — buy semantics -/

/-- C5: for an existing wallet and a registered token,
`buy_tokens` computes `cost = q * price`, `fee = cost * f`,
`total = cost + fee`; it fails with insufficient funds exactly when the
settlement balance is below `total`, and on success debits the settlement
balance by `total` and credits the token holding by `q`. -/
theorem buy_tokens_spec (f : ℚ) (w : Wallet) (sym : String) (q : ℚ)
    (s : ChainState) (now : ℚ) (token : CompanyToken)
    (hreg : alookup s.registered_tokens sym = some token) :
    (w.usd_balance < q * token.price + q * token.price * f →
      buy_tokens f w sym q s now = (BuyResult.insufficientFunds, w, s))
    ∧ (q * token.price + q * token.price * f ≤ w.usd_balance →
      (buy_tokens f w sym q s now).1 =
        BuyResult.ok q token.price (q * token.price) (q * token.price * f)
          (q * token.price + q * token.price * f)
          (w.usd_balance - (q * token.price + q * token.price * f))
          (getBalanceW w sym + q)
      ∧ (buy_tokens f w sym q s now).2.1.usd_balance =
          w.usd_balance - (q * token.price + q * token.price * f)
      ∧ getBalanceW (buy_tokens f w sym q s now).2.1 sym =
          getBalanceW w sym + q) := by
  constructor
  · intro h
    exact buy_tokens_insufficient_eq f w sym q s now token hreg h
  · intro h
    rw [buy_tokens_ok_eq f w sym q s now token hreg h]
    refine ⟨rfl, ?_, ?_⟩
    · rw [record_trade_usd, add_tokens_usd]
    · rw [getBalanceW_record_trade, getBalanceW_add_tokens, getBalanceW_set_usd]

/-- Witness for C5: the spec's concrete scenario — balance 10000, buying
10 units at price 100.00 with fee rate 0.01 ends with balance 8990 and
holding 10. -/
theorem buy_tokens_spec_wit :
    (buy_tokens (1/100) demoWallet "TOK" 10 demoChainState 0).2.1.usd_balance = 8990
    ∧ getBalanceW (buy_tokens (1/100) demoWallet "TOK" 10 demoChainState 0).2.1 "TOK" = 10 := by
  have h := (buy_tokens_spec (1/100) demoWallet "TOK" 10 demoChainState 0 demoToken
    (by decide)).2 (by norm_num [demoWallet, demoToken])
  refine ⟨?_, ?_⟩
  · rw [h.2.1]; norm_num [demoWallet, demoToken]
  · rw [h.2.2]; norm_num [getBalanceW, demoWallet, alookup]

/-! ## C4 — buy-then-sell round trip -/

/-- C4: buying `q` at price `p` with fee rate `f` and immediately selling
the same `q` at the same `p` leaves the settlement balance reduced by
exactly `q*p*f*2` and the token holding at its pre-trade level (whatever
the chain does with the SELL submission, since the wallet is mutated
before the chain is consulted). -/
theorem buy_sell_round_trip (f : ℚ) (w : Wallet) (sym : String) (q : ℚ)
    (s : ChainState) (now1 now2 : ℚ) (token : CompanyToken)
    (hreg : alookup s.registered_tokens sym = some token)
    (hh : 0 ≤ getBalanceW w sym)
    (hb : q * token.price + q * token.price * f ≤ w.usd_balance) :
    (sell_tokens f (buy_tokens f w sym q s now1).2.1 sym q
        (buy_tokens f w sym q s now1).2.2 now2).2.1.usd_balance =
      w.usd_balance - q * token.price * f * 2
    ∧ getBalanceW (sell_tokens f (buy_tokens f w sym q s now1).2.1 sym q
        (buy_tokens f w sym q s now1).2.2 now2).2.1 sym =
      getBalanceW w sym := by
  rw [buy_tokens_ok_eq f w sym q s now1 token hreg hb]
  set w1 := record_trade
    (add_tokens { w with usd_balance := w.usd_balance - (q * token.price + q * token.price * f) } sym q)
    "BUY" sym q token.price (q * token.price * f) with hw1
  set s1 : ChainState := { s with
    registered_tokens := aset s.registered_tokens sym (add_trade token now1 q token.price "BUY"),
    pending := s.pending ++ [tradeTx "BUY" w q sym] } with hs1
  set token1 := add_trade token now1 q token.price "BUY" with htok1
  have halook : alookup w1.token_balances sym = some (getBalanceW w sym + q) := by
    rw [hw1]
    show alookup (add_tokens _ sym q).token_balances sym = _
    rw [alookup_add_tokens, getBalanceW_set_usd]
  have hw1bal : getBalanceW w1 sym = getBalanceW w sym + q := by
    rw [getBalanceW, halook, Option.getD_some]
  have hold1 : ¬ getBalanceW w1 sym < q := by
    rw [hw1bal]; exact not_lt.mpr (by linarith)
  have hreg1 : alookup s1.registered_tokens sym = some token1 := by
    rw [hs1]; exact alookup_aset_self _ _ _
  have hp1 : token1.price = token.price := rfl
  have hsell : (sell_tokens f w1 sym q s1 now2).2.1 =
      sellWallet f w1 sym q token1.price := by
    cases hval : validate_transaction s1.balances (tradeTx "SELL" w1 q sym) with
    | false => rw [sell_tokens_rejected_eq f w1 sym q s1 now2 token1 hreg1 hold1 hval]
    | true => rw [sell_tokens_ok_eq f w1 sym q s1 now2 token1 hreg1 hold1 hval]
  rw [hsell]
  have hw1usd : w1.usd_balance =
      w.usd_balance - (q * token.price + q * token.price * f) := by
    rw [hw1, record_trade_usd, add_tokens_usd]
  constructor
  · rw [sellWallet_usd, hw1usd, hp1]; ring
  · have hnb : ¬ (getBalanceW w sym + q) < q := not_lt.mpr (by linarith)
    rw [getBalanceW_sellWallet_some f w1 sym q token1.price _ halook hnb]
    ring

/-- Witness for C4: a wallet with balance 10000 buys and immediately
sells 10 TOK at 100.00 with fee rate 0.01; it ends at 9980 and holding 0. -/
theorem buy_sell_round_trip_wit :
    (sell_tokens (1/100) (buy_tokens (1/100) demoWallet "TOK" 10 demoChainState 0).2.1 "TOK" 10
        (buy_tokens (1/100) demoWallet "TOK" 10 demoChainState 0).2.2 0).2.1.usd_balance =
      demoWallet.usd_balance - 10 * demoToken.price * (1/100) * 2
    ∧ getBalanceW (sell_tokens (1/100) (buy_tokens (1/100) demoWallet "TOK" 10 demoChainState 0).2.1 "TOK" 10
        (buy_tokens (1/100) demoWallet "TOK" 10 demoChainState 0).2.2 0).2.1 "TOK" =
      getBalanceW demoWallet "TOK" :=
  buy_sell_round_trip (1/100) demoWallet "TOK" 10 demoChainState 0 0 demoToken
    (by decide) (by decide) (by norm_num [demoWallet, demoToken])

/-! ## C1 — trade "atomicity" -/

/-- A chain state with `demoToken` registered whose mined ledger has no
entry for `cexWallet.address`, so a SELL submission from that wallet is
rejected by `_validate_transaction`. -/
def cexState : ChainState :=
  { chain := [], pending := [], difficulty := 2, balances := [],
    registered_tokens := [("TOK", demoToken)] }

/-- Counterexample to C1: `cexWallet` holds 5 TOK wallet-side while the
chain's mined ledger is empty.  Selling those 5 TOK is rejected by the
chain's validation (the raised `ValueError`), yet the wallet's settlement
balance and its token holding have both already been mutated — the wallet
is mutated *before* the chain is consulted, not after. -/
theorem trade_atomicity_cex :
    (sell_tokens (1/100) cexWallet "TOK" 5 cexState 0).1 = SellResult.chainRejected
    ∧ (sell_tokens (1/100) cexWallet "TOK" 5 cexState 0).2.1.usd_balance ≠
        cexWallet.usd_balance
    ∧ getBalanceW (sell_tokens (1/100) cexWallet "TOK" 5 cexState 0).2.1 "TOK" ≠
        getBalanceW cexWallet "TOK" := by
  norm_num [sell_tokens, cexWallet, cexState, demoToken, getBalanceW, alookup,
    aset, deduct_tokens, add_usd, record_trade, add_trade, create_transaction,
    validate_transaction, tradeTx, bumpLastVolume, updateLast, tradeEntry]
  decide

/-- C1 (amended): a SELL whose wallet-side check passes but whose chain
submission is rejected by `_validate_transaction` raises out of
`sell_tokens` *after* the wallet mutation: the settlement balance has been
credited with the net proceeds, the token holding debited by the amount,
and nothing was queued on the chain. -/
theorem sell_chain_rejected_state (f : ℚ) (w : Wallet) (sym : String)
    (amt : ℚ) (s : ChainState) (now : ℚ) (token : CompanyToken)
    (hreg : alookup s.registered_tokens sym = some token)
    (hamt : 0 ≤ amt)
    (hold : ¬ getBalanceW w sym < amt)
    (hval : validate_transaction s.balances (tradeTx "SELL" w amt sym) = false) :
    (sell_tokens f w sym amt s now).1 = SellResult.chainRejected
    ∧ (sell_tokens f w sym amt s now).2.1.usd_balance =
        w.usd_balance + (amt * token.price - amt * token.price * f)
    ∧ getBalanceW (sell_tokens f w sym amt s now).2.1 sym =
        getBalanceW w sym - amt
    ∧ (sell_tokens f w sym amt s now).2.2.pending = s.pending := by
  rw [sell_tokens_rejected_eq f w sym amt s now token hreg hold hval]
  exact ⟨rfl, sellWallet_usd f w sym amt token.price,
    getBalanceW_sellWallet f w sym amt token.price hold hamt, rfl⟩

/-- Witness for the amended C1 at the counterexample's input. -/
theorem sell_chain_rejected_state_wit :
    (sell_tokens (1/100) cexWallet "TOK" 5 cexState 0).1 = SellResult.chainRejected
    ∧ (sell_tokens (1/100) cexWallet "TOK" 5 cexState 0).2.1.usd_balance =
        cexWallet.usd_balance + (5 * demoToken.price - 5 * demoToken.price * (1/100))
    ∧ getBalanceW (sell_tokens (1/100) cexWallet "TOK" 5 cexState 0).2.1 "TOK" =
        getBalanceW cexWallet "TOK" - 5
    ∧ (sell_tokens (1/100) cexWallet "TOK" 5 cexState 0).2.2.pending =
        cexState.pending :=
  sell_chain_rejected_state (1/100) cexWallet "TOK" 5 cexState 0 demoToken
    (by decide) (by decide) (by decide) (by decide)

/-! ## C6 — SELL admission policy -/

/-- A SELL of amount 0 from an address absent from the mined ledger. -/
def zeroSellTx : Tx :=
  { ty := some "SELL", from_address := "alice", to_address := "bob",
    amount := 0, token_symbol := "TOK" }

/-- Counterexample to C6: under the zero-default reading the sender's
balance (0) is ≥ the amount (0), so the claim admits this SELL; the code
rejects it, because a missing ledger entry is rejected outright before
any comparison. -/
theorem sell_admission_zero_default_cex :
    zeroSellTx.ty = some "SELL"
    ∧ zeroSellTx.from_address ≠ "MINT" ∧ zeroSellTx.from_address ≠ "SYSTEM"
    ∧ zeroSellTx.amount ≤
        get_balance [] zeroSellTx.from_address zeroSellTx.token_symbol
    ∧ validate_transaction [] zeroSellTx = false := by
  decide

/-- C6 (amended): a SELL from a non-`MINT`/`SYSTEM` sender is admitted
iff the sender has an *explicit* ledger entry for the token and that
balance is ≥ the amount.  For strictly positive amounts this coincides
with the claim's zero-default reading; a missing entry is rejected even
when the amount is ≤ 0.  A rejected transaction is never queued. -/
theorem sell_admission_spec (b : Balances) (tx : Tx)
    (hty : tx.ty = some "SELL")
    (hm : tx.from_address ≠ "MINT") (hs : tx.from_address ≠ "SYSTEM") :
    (validate_transaction b tx = true ↔
      ∃ tb bal, alookup b tx.from_address = some tb
        ∧ alookup tb tx.token_symbol = some bal ∧ tx.amount ≤ bal)
    ∧ (0 < tx.amount →
      (validate_transaction b tx = true ↔
        tx.amount ≤ get_balance b tx.from_address tx.token_symbol))
    ∧ (∀ s : ChainState, s.balances = b →
        validate_transaction b tx = false → create_transaction s tx = none) := by
  have hne : ¬ ((some "SELL" : Option String) = some "BUY") := by decide
  have hcond : ¬ (tx.from_address = "MINT" ∨ tx.from_address = "SYSTEM") := by
    rintro (h | h)
    · exact hm h
    · exact hs h
  refine ⟨?_, ?_, ?_⟩
  · cases h1 : alookup b tx.from_address with
    | none => simp [validate_transaction, hcond, hty, hne, h1]
    | some tb =>
      cases h2 : alookup tb tx.token_symbol with
      | none => simp [validate_transaction, hcond, hty, hne, h1, h2]
      | some bal => simp [validate_transaction, hcond, hty, hne, h1, h2]
  · intro hpos
    have hnle : ¬ tx.amount ≤ 0 := not_le.mpr hpos
    cases h1 : alookup b tx.from_address with
    | none => simp [validate_transaction, get_balance, hcond, hty, hne, h1, hnle]
    | some tb =>
      cases h2 : alookup tb tx.token_symbol with
      | none => simp [validate_transaction, get_balance, hcond, hty, hne, h1, h2, hnle]
      | some bal => simp [validate_transaction, get_balance, hcond, hty, hne, h1, h2]
  · intro s hsb hvf
    simp [create_transaction, hsb, hvf]

/-- Witness for the amended C6: a SELL of 5 from a sender with an
explicit ledger balance of 7. -/
theorem sell_admission_spec_wit :
    (validate_transaction [("alice", [("TOK", (7:ℚ))])]
        { ty := some "SELL", from_address := "alice", to_address := "bob",
          amount := 5, token_symbol := "TOK" } = true ↔
      ∃ tb bal, alookup [("alice", [("TOK", (7:ℚ))])] "alice" = some tb
        ∧ alookup tb "TOK" = some bal ∧ (5:ℚ) ≤ bal)
    ∧ ((0:ℚ) < 5 →
      (validate_transaction [("alice", [("TOK", (7:ℚ))])]
          { ty := some "SELL", from_address := "alice", to_address := "bob",
            amount := 5, token_symbol := "TOK" } = true ↔
        (5:ℚ) ≤ get_balance [("alice", [("TOK", (7:ℚ))])] "alice" "TOK"))
    ∧ (∀ s : ChainState, s.balances = [("alice", [("TOK", (7:ℚ))])] →
        validate_transaction [("alice", [("TOK", (7:ℚ))])]
          { ty := some "SELL", from_address := "alice", to_address := "bob",
            amount := 5, token_symbol := "TOK" } = false →
        create_transaction s
          { ty := some "SELL", from_address := "alice", to_address := "bob",
            amount := 5, token_symbol := "TOK" } = none) :=
  sell_admission_spec [("alice", [("TOK", (7:ℚ))])]
    { ty := some "SELL", from_address := "alice", to_address := "bob",
      amount := 5, token_symbol := "TOK" }
    (by decide) (by decide) (by decide)

/-! ## C7 — the price-formation function -/

/-- C7: the price formula is a pure function of its inputs (it is a Lean
function of exactly the listed arguments, so determinism is definitional);
its result is never below 0.01; and on the spec's concrete scenario
(price 100, performance 0.8, zero volume, neutral sentiment) it returns
exactly 110.00. -/
theorem calculate_price_update_spec (l : ℚ → ℚ) (p e v sent : ℚ)
    (h0 : l 0 = 0) :
    1/100 ≤ calculate_price_update l p e v sent
    ∧ calculate_price_update l 100 (4/5) 0 (1/2) = 110 := by
  constructor
  · unfold calculate_price_update
    exact round2_ge_hundredth _ (le_max_right _ _)
  · have h1 : calculate_price_update l 100 (4/5) 0 (1/2) = round2 110 := by
      norm_num [calculate_price_update, emission_impact_factor,
        market_sentiment_factor, volume_factor, h0, min_def, max_def]
    rw [h1]
    norm_num [round2, pyRound]

/-- Witness for C7 with the zero function standing in for `log1p`. -/
theorem calculate_price_update_spec_wit :
    1/100 ≤ calculate_price_update (fun _ => 0) 7 3 5 9
    ∧ calculate_price_update (fun _ => 0) 100 (4/5) 0 (1/2) = 110 :=
  calculate_price_update_spec (fun _ => 0) 7 3 5 9 rfl

/-! ## C8 — mining with an empty queue is a no-op -/

/-- C8: if the pending queue is empty, `mine_pending_transactions`
returns false and the chain, the pending queue and every ledger balance
are unchanged. -/
theorem mine_empty_noop (H : HashFn) (s : ChainState) (r : Bool)
    (s' : ChainState) (hp : s.pending = []) (hm : MineStep H s r s') :
    r = false ∧ s'.chain = s.chain ∧ s'.pending = s.pending
    ∧ s'.balances = s.balances := by
  cases hm with
  | noop _ => exact ⟨rfl, rfl, rfl, rfl⟩
  | mined tip now nonce hne _ _ => exact absurd hp hne

/-- The constant hash function used to instantiate witnesses (any
`HashFn` works for the chain theorems; this one makes proof-of-work at
difficulty 1 succeed at nonce 0). -/
def constHash : HashFn := fun _ _ _ _ _ => "0"

/-- Witness for C8: a mining step on a fresh chain with nothing pending. -/
theorem mine_empty_noop_wit :
    false = false
    ∧ (initState constHash 1 0 []).chain = (initState constHash 1 0 []).chain
    ∧ (initState constHash 1 0 []).pending = (initState constHash 1 0 []).pending
    ∧ (initState constHash 1 0 []).balances = (initState constHash 1 0 []).balances :=
  mine_empty_noop constHash (initState constHash 1 0 []) false
    (initState constHash 1 0 []) rfl (MineStep.noop _ rfl)

/-! ## C2 — chains built by submit/mine validate -/

theorem is_chain_valid_append (H : HashFn) (d : Nat) (c : List Block)
    (tip b : Block)
    (hv : is_chain_valid H d c = true)
    (hl : c.getLast? = some tip)
    (h1 : b.hash = calculate_hash H b)
    (h2 : b.previous_hash = tip.hash)
    (h3 : startsWith b.hash (zeroStr d) = true) :
    is_chain_valid H d (c ++ [b]) = true := by
  revert hv hl
  induction c with
  | nil =>
    intro hv hl
    simp at hl
  | cons x rest ih =>
    intro hv hl
    cases rest with
    | nil =>
      simp only [List.getLast?_singleton, Option.some.injEq] at hl
      subst hl
      show is_chain_valid H d [x, b] = true
      simp only [is_chain_valid, checkPair, Bool.and_eq_true, beq_iff_eq]
      exact ⟨⟨⟨h1, h2⟩, h3⟩, trivial⟩
    | cons y rest2 =>
      rw [List.getLast?_cons_cons] at hl
      simp only [is_chain_valid, Bool.and_eq_true] at hv
      show is_chain_valid H d (x :: y :: (rest2 ++ [b])) = true
      simp only [is_chain_valid, Bool.and_eq_true]
      exact ⟨hv.1, ih hv.2 hl⟩

/-- C2: every chain state built from a fresh blockchain solely by
transaction submissions and mining passes `is_chain_valid`: each block
after genesis stores a hash equal to its recomputed hash, links to its
predecessor's hash, and meets the difficulty's leading-zeros predicate. -/
theorem chains_reachable_valid (H : HashFn) (s : ChainState)
    (h : Reachable H s) :
    is_chain_valid H s.difficulty s.chain = true := by
  induction h with
  | init d t0 toks => rfl
  | submit s tx s' hr hc ih =>
    by_cases hval : validate_transaction s.balances tx = true
    · simp only [create_transaction, hval, if_true, ite_true,
        Option.some.injEq] at hc
      subst hc
      exact ih
    · simp [create_transaction, hval] at hc
  | mine s r s' hr hst ih =>
    cases hst with
    | noop _ => exact ih
    | mined tip now nonce hne hl hpow =>
      exact is_chain_valid_append H s.difficulty s.chain tip _ ih hl rfl rfl hpow

/-- The `MINT` transaction used in the chain witnesses. -/
def mintTx : Tx :=
  { ty := some "MINT", from_address := "MINT", to_address := "A",
    amount := 5, token_symbol := "TOK" }

/-- The chain state after submitting `mintTx` to a fresh difficulty-1
blockchain over `constHash`. -/
def mintSubmitted : ChainState :=
  { chain := [genesisBlock constHash 0], pending := [mintTx], difficulty := 1,
    balances := [], registered_tokens := [] }

/-- Witness for C2: a genesis-plus-one-mined-block chain over `constHash`
is reachable and validates. -/
theorem chains_reachable_valid_wit :
    ∃ s : ChainState, Reachable constHash s
      ∧ is_chain_valid constHash s.difficulty s.chain = true := by
  have h1 : Reachable constHash mintSubmitted :=
    Reachable.submit (initState constHash 1 0 []) mintTx mintSubmitted
      (Reachable.init 1 0 []) (by decide)
  have h2 := Reachable.mine _ true _ h1
    (MineStep.mined mintSubmitted (genesisBlock constHash 0) 1 0
      (by decide) (by decide) (by decide))
  exact ⟨_, h2, chains_reachable_valid constHash _ h2⟩

/-! ## C10 — ledger balances can go negative -/

theorem reachable_of_eq (H : HashFn) {s s' : ChainState}
    (h : Reachable H s) (e : s = s') : Reachable H s' := e ▸ h

/-- Mints 10 TOK to address `A`. -/
def mintTenTx : Tx :=
  { ty := some "MINT", from_address := "MINT", to_address := "A",
    amount := 10, token_symbol := "TOK" }

/-- Sells 6 TOK from address `A` (individually within the mined balance
of 10, jointly exceeding it). -/
def sellSixTx : Tx :=
  { ty := some "SELL", from_address := "A", to_address := "A",
    amount := 6, token_symbol := "TOK" }

/-- State after submitting the mint to a fresh difficulty-1 chain. -/
def negS1 : ChainState :=
  { chain := [genesisBlock constHash 0], pending := [mintTenTx],
    difficulty := 1, balances := [], registered_tokens := [] }

/-- The block sealing the mint. -/
def negBlock1 : Block :=
  { index := 1, transactions := [mintTenTx], timestamp := 1,
    previous_hash := "0", nonce := 0, hash := "0" }

/-- State after mining the mint: `A` holds 10 TOK in the mined ledger. -/
def negS2 : ChainState :=
  { chain := [genesisBlock constHash 0, negBlock1], pending := [],
    difficulty := 1, balances := [("A", [("TOK", 10)])],
    registered_tokens := [] }

/-- State after the first SELL submission. -/
def negS3 : ChainState :=
  { negS2 with pending := [sellSixTx] }

/-- State after the second SELL submission: both SELLs were validated
against the same mined balance of 10. -/
def negS4 : ChainState :=
  { negS2 with pending := [sellSixTx, sellSixTx] }

/-- The block sealing the two SELLs. -/
def negBlock2 : Block :=
  { index := 2, transactions := [sellSixTx, sellSixTx], timestamp := 2,
    previous_hash := "0", nonce := 0, hash := "0" }

/-- State after mining the two SELLs: `A`'s TOK balance is `-2`. -/
def negS5 : ChainState :=
  { chain := [genesisBlock constHash 0, negBlock1, negBlock2],
    pending := [], difficulty := 1, balances := [("A", [("TOK", -2)])],
    registered_tokens := [] }

/-- C10: non-negativity of ledger balances is not an invariant — a state
with a negative balance is reachable by submissions and mining alone.
Two SELLs of 6, each validated against the mined balance of 10 (admission
never accounts for other pending transactions), are both admitted, and
mining the block holding both debits the sender twice, to −2. -/
theorem negative_balance_reachable :
    ∃ s : ChainState, Reachable constHash s
      ∧ get_balance s.balances "A" "TOK" < 0 := by
  have h1 : Reachable constHash negS1 :=
    Reachable.submit (initState constHash 1 0 []) mintTenTx negS1
      (Reachable.init 1 0 []) (by decide)
  have h2 : Reachable constHash negS2 := by
    refine reachable_of_eq constHash (Reachable.mine _ true _ h1
      (MineStep.mined negS1 (genesisBlock constHash 0) 1 0
        (by decide) (by decide) (by decide))) ?_
    norm_num [negS1, negS2, negBlock1, genesisBlock, constHash, mintTenTx,
      update_balances, ensureEntry, addBal, alookup, aset]
    decide
  have h3 : Reachable constHash negS3 :=
    Reachable.submit negS2 sellSixTx negS3 h2 (by decide)
  have h4 : Reachable constHash negS4 :=
    Reachable.submit negS3 sellSixTx negS4 h3 (by decide)
  have h5 : Reachable constHash negS5 := by
    refine reachable_of_eq constHash (Reachable.mine _ true _ h4
      (MineStep.mined negS4 negBlock1 2 0 (by decide) (by decide)
        (by decide))) ?_
    norm_num [negS4, negS5, negS2, negBlock1, negBlock2, genesisBlock,
      constHash, sellSixTx, update_balances, ensureEntry, addBal, alookup,
      aset]
    decide
  exact ⟨negS5, h5, by norm_num [negS5, get_balance, alookup]⟩

/-! ## C3 — forced price updates -/

/-- A token whose single candle was opened at time 0. -/
def youngCandleToken : CompanyToken :=
  { price := 100, price_history := [],
    candlestick_data := [{ timestamp := 0, open_ := 100, high := 100,
                           low := 100, close := 100, volume := 0 }],
    volume_24h := 0, trades := [] }

/-- Counterexample to C3: a forced update at time 0 (the most recent
candle is 0 seconds old) appends to the price history but does NOT append
a new candle — the candle count stays 1 and the update is merged into the
existing candle instead. -/
theorem forced_update_candle_cex :
    (update_price youngCandleToken 0 50 true).price_history = [(0, 50)]
    ∧ (update_price youngCandleToken 0 50 true).candlestick_data.length = 1
    ∧ youngCandleToken.candlestick_data.length = 1 := by
  norm_num [update_price, youngCandleToken, trim100, mergeLast, updateLast,
    mergeCandle, newCandle]

/-- Reduction of `update_price` under `force = true` with no candles: only price and
price history change. -/
theorem update_price_forced_none (t : CompanyToken) (now p : ℚ)
    (h : t.candlestick_data.getLast? = none) :
    update_price t now p true =
      { t with price := p,
               price_history := trim100 (t.price_history ++ [(now, p)]) } := by
  simp [update_price, h]

/-- Reduction of `update_price` under `force = true` with a stale (≥ 24h) last candle:
a fresh candle is appended and the series trimmed. -/
theorem update_price_forced_old (t : CompanyToken) (now p : ℚ) (lc : Candle)
    (h : t.candlestick_data.getLast? = some lc)
    (hage : 86400 ≤ now - lc.timestamp) :
    update_price t now p true =
      { t with price := p,
               price_history := trim100 (t.price_history ++ [(now, p)]),
               candlestick_data :=
                 trim100 (t.candlestick_data ++ [newCandle now p lc]) } := by
  simp [update_price, h, hage]

/-- Reduction of `update_price` under `force = true` with a young (< 24h) last candle:
the price history is appended but the candle is merged, not renewed. -/
theorem update_price_forced_young (t : CompanyToken) (now p : ℚ) (lc : Candle)
    (h : t.candlestick_data.getLast? = some lc)
    (hlt : now - lc.timestamp < 86400) :
    update_price t now p true =
      { t with price := p,
               price_history := trim100 (t.price_history ++ [(now, p)]),
               candlestick_data := mergeLast t.candlestick_data p } := by
  simp [update_price, h, not_le.mpr hlt, mergeLast]

/-- C3 (amended): a forced price update always sets the current price and
appends `(now, new_price)` to the (trimmed) price history, but a new
candle — seeded `open = previous close, high = low = close = new_price,
volume = 0` — is appended (and the series trimmed to 100) only when a
candle exists and the most recent one is at least 24h old; when it is
younger the forced update merges into it, and when no candle exists none
is created. -/
theorem update_price_forced_spec (t : CompanyToken) (now p : ℚ) :
    (update_price t now p true).price = p
    ∧ (update_price t now p true).price_history =
        trim100 (t.price_history ++ [(now, p)])
    ∧ (t.candlestick_data = [] →
        (update_price t now p true).candlestick_data = [])
    ∧ (∀ lc, t.candlestick_data.getLast? = some lc →
        86400 ≤ now - lc.timestamp →
        (update_price t now p true).candlestick_data =
          trim100 (t.candlestick_data ++ [newCandle now p lc]))
    ∧ (∀ lc, t.candlestick_data.getLast? = some lc →
        now - lc.timestamp < 86400 →
        (update_price t now p true).candlestick_data =
          mergeLast t.candlestick_data p) := by
  cases h : t.candlestick_data.getLast? with
  | none =>
    rw [update_price_forced_none t now p h]
    refine ⟨rfl, rfl, fun hc => hc, ?_, ?_⟩
    · intro lc hlc _
      cases hlc
    · intro lc hlc _
      cases hlc
  | some lc0 =>
    by_cases hage : 86400 ≤ now - lc0.timestamp
    · rw [update_price_forced_old t now p lc0 h hage]
      refine ⟨rfl, rfl, ?_, ?_, ?_⟩
      · intro hc
        rw [hc] at h
        simp at h
      · intro lc hlc _
        cases hlc
        rfl
      · intro lc hlc hlt
        cases hlc
        exact absurd hage (not_le.mpr hlt)
    · have hlt0 : now - lc0.timestamp < 86400 := not_le.mp hage
      rw [update_price_forced_young t now p lc0 h hlt0]
      refine ⟨rfl, rfl, ?_, ?_, ?_⟩
      · intro hc
        rw [hc] at h
        simp at h
      · intro lc hlc hage2
        cases hlc
        exact absurd hage2 hage
      · intro lc hlc _
        cases hlc
        rfl

/-- The single candle of `youngCandleToken`. -/
def baseCandle : Candle :=
  { timestamp := 0, open_ := 100, high := 100, low := 100, close := 100,
    volume := 0 }

/-- Witness for the amended C3: a forced update 100000 seconds (> 24h)
after the last candle opens a fresh candle seeded from its close. -/
theorem update_price_forced_spec_wit :
    (update_price youngCandleToken 100000 50 true).price = 50
    ∧ (update_price youngCandleToken 100000 50 true).candlestick_data =
        trim100 (youngCandleToken.candlestick_data ++ [newCandle 100000 50 baseCandle]) :=
  ⟨(update_price_forced_spec youngCandleToken 100000 50).1,
   (update_price_forced_spec youngCandleToken 100000 50).2.2.2.1 baseCandle
     (by decide) (by norm_num [baseCandle])⟩

/-! ## C9 — unforced updates within the candle period -/

/-- A sequence of unforced price updates, each carrying its own clock
reading: `applyUpdates t [(t1, p1), (t2, p2), ...]` runs
`update_price(p_i, force=False)` at time `t_i` in order. -/
def applyUpdates (t : CompanyToken) (us : List (ℚ × ℚ)) : CompanyToken :=
  us.foldl (fun acc u => update_price acc u.1 u.2 false) t

/-- Reduction of `update_price` without force while the last candle is younger than
24h: merge into the last candle, update the price, and touch nothing
else (the early return of the source). -/
theorem update_price_unforced_young (t : CompanyToken) (now p : ℚ)
    (lc : Candle) (hlast : t.candlestick_data.getLast? = some lc)
    (hy : now - lc.timestamp < 86400) :
    update_price t now p false =
      { t with price := p,
               candlestick_data := mergeLast t.candlestick_data p } := by
  simp [update_price, hlast, hy, mergeLast]

theorem mergeLast_getLast? (l : List Candle) (p : ℚ) (lc : Candle)
    (h : l.getLast? = some lc) :
    (mergeLast l p).getLast? = some (mergeCandle lc p) := by
  rw [mergeLast, getLast?_updateLast, h]
  rfl

/-- Fold invariant behind C9, proved by induction on the update list. -/
theorem unforced_fold_aux (us : List (ℚ × ℚ)) : ∀ (t : CompanyToken) (lc : Candle),
    t.candlestick_data.getLast? = some lc →
    (∀ u ∈ us, u.1 - lc.timestamp < 86400) →
    (applyUpdates t us).candlestick_data.length = t.candlestick_data.length
    ∧ (applyUpdates t us).price_history = t.price_history
    ∧ ∃ lc', (applyUpdates t us).candlestick_data.getLast? = some lc'
        ∧ lc'.timestamp = lc.timestamp
        ∧ lc.high ≤ lc'.high ∧ lc'.low ≤ lc.low
        ∧ (us = [] → applyUpdates t us = t ∧ lc' = lc)
        ∧ (∀ u, us.getLast? = some u →
            lc'.close = u.2 ∧ (applyUpdates t us).price = u.2) := by
  induction us with
  | nil =>
    intro t lc hl hy
    refine ⟨rfl, rfl, lc, hl, rfl, le_refl _, le_refl _, fun _ => ⟨rfl, rfl⟩, ?_⟩
    intro u hu
    simp at hu
  | cons u0 us' ih =>
    intro t lc hl hy
    have hy0 : u0.1 - lc.timestamp < 86400 := hy u0 (List.mem_cons_self _ _)
    have hstep := update_price_unforced_young t u0.1 u0.2 lc hl hy0
    have happ : applyUpdates t (u0 :: us') =
        applyUpdates (update_price t u0.1 u0.2 false) us' := rfl
    set t1 : CompanyToken :=
      { t with price := u0.2,
               candlestick_data := mergeLast t.candlestick_data u0.2 } with ht1
    have hl1 : t1.candlestick_data.getLast? = some (mergeCandle lc u0.2) :=
      mergeLast_getLast? _ _ _ hl
    have hts : (mergeCandle lc u0.2).timestamp = lc.timestamp := rfl
    have hy1 : ∀ u ∈ us', u.1 - (mergeCandle lc u0.2).timestamp < 86400 := by
      intro u hu
      rw [hts]
      exact hy u (List.mem_cons_of_mem _ hu)
    obtain ⟨hlen, hhist, lc', hlast', hts', hhigh, hlow, hnil, hclose⟩ :=
      ih t1 (mergeCandle lc u0.2) hl1 hy1
    rw [happ, hstep]
    refine ⟨?_, ?_, lc', hlast', ?_, ?_, ?_, ?_, ?_⟩
    · rw [hlen, ht1]
      simp [mergeLast, updateLast_length]
    · rw [hhist, ht1]
    · rw [hts', hts]
    · exact le_trans (le_max_left _ _) hhigh
    · exact le_trans hlow (min_le_left _ _)
    · intro hcons
      cases hcons
    · intro u hu
      cases hus : us' with
      | nil =>
        subst hus
        obtain ⟨hid, hlc'⟩ := hnil rfl
        simp only [List.getLast?_singleton, Option.some.injEq] at hu
        subst hu
        subst hlc'
        refine ⟨rfl, ?_⟩
        rw [hid]
      | cons v vs =>
        rw [hus] at hclose hu
        rw [List.getLast?_cons_cons] at hu
        exact hclose u hu

/-- C9: for a token whose most recent candle stays younger than the 24h
candle period, any sequence of unforced price updates leaves the candle
count and the price history unchanged, never moves the active candle's
timestamp, makes its high non-decreasing and its low non-increasing, and
leaves its close and the token's current price equal to the last updated
price. -/
theorem unforced_updates_within_period (t : CompanyToken)
    (us : List (ℚ × ℚ)) (lc : Candle)
    (hlast : t.candlestick_data.getLast? = some lc)
    (hy : ∀ u ∈ us, u.1 - lc.timestamp < 86400) :
    (applyUpdates t us).candlestick_data.length = t.candlestick_data.length
    ∧ (applyUpdates t us).price_history = t.price_history
    ∧ ∃ lc', (applyUpdates t us).candlestick_data.getLast? = some lc'
        ∧ lc'.timestamp = lc.timestamp
        ∧ lc.high ≤ lc'.high ∧ lc'.low ≤ lc.low
        ∧ (∀ u, us.getLast? = some u →
            lc'.close = u.2 ∧ (applyUpdates t us).price = u.2) := by
  obtain ⟨a, b, lc', c, d, e, f, _, g⟩ := unforced_fold_aux us t lc hlast hy
  exact ⟨a, b, lc', c, d, e, f, g⟩

/-- Witness for C9: two same-day updates (prices 120 then 80) on a token
with one candle opened at time 0. -/
theorem unforced_updates_within_period_wit :
    (applyUpdates youngCandleToken [(10, 120), (20, 80)]).candlestick_data.length =
      youngCandleToken.candlestick_data.length
    ∧ (applyUpdates youngCandleToken [(10, 120), (20, 80)]).price_history =
        youngCandleToken.price_history
    ∧ ∃ lc', (applyUpdates youngCandleToken [(10, 120), (20, 80)]).candlestick_data.getLast? =
          some lc'
        ∧ lc'.timestamp = baseCandle.timestamp
        ∧ baseCandle.high ≤ lc'.high ∧ lc'.low ≤ baseCandle.low
        ∧ (∀ u, ([(10, 120), (20, 80)] : List (ℚ × ℚ)).getLast? = some u →
            lc'.close = u.2
            ∧ (applyUpdates youngCandleToken [(10, 120), (20, 80)]).price = u.2) :=
  unforced_updates_within_period youngCandleToken [(10, 120), (20, 80)]
    baseCandle (by decide)
    (by
      intro u hu
      simp only [List.mem_cons, List.mem_singleton] at hu
      rcases hu with rfl | rfl | hu
      · norm_num [baseCandle]
      · norm_num [baseCandle]
      · simp at hu)
